import Mathlib

/-!
Verification development for the signal-tracking subsystem of the
Telegram-bot repository (src/src/services/pnlService.js and
src/src/cli/pnl-manager.js).

The JavaScript source is shallowly embedded: numbers are modelled as
rationals (JS doubles carry enough precision on the magnitudes involved;
`toFixed(2)` is modelled as exact decimal rounding, half away from zero
towards plus infinity per the ECMA rule), timestamps as naturals threaded
through the operations, the Redis store as explicit association lists, and
each regular expression of `parseSignal` as a hand-rolled scanner that
reproduces the JS engine's leftmost-match and backtracking order for that
particular pattern.  Lowercasing models the ASCII fragment of JS
`toLowerCase`, and `\s` is modelled by the four common ASCII whitespace
characters.
-/

namespace Pnl

/- Batteries marks rational arithmetic `@[irreducible]`; concrete evaluation
in proofs (`decide`) needs it reducible. -/
attribute [local semireducible] Rat.add Rat.mul Rat.sub Rat.inv

abbrev Chars := List Char

/-- JS `String.prototype.includes` over character lists. -/
def hasSubstr (pat : Chars) : Chars → Bool
  | [] => pat.isEmpty
  | c :: rest => pat.isPrefixOf (c :: rest) || hasSubstr pat rest

/-- JS `text.includes(pat)`. -/
def jsIncludes (s pat : String) : Bool :=
  hasSubstr pat.data s.data

/-- JS `toLowerCase`, ASCII fragment. -/
def lowerStr (s : String) : String :=
  ⟨s.data.map Char.toLower⟩

/-- JS `toUpperCase`, ASCII fragment. -/
def upperStr (s : String) : String :=
  ⟨s.data.map Char.toUpper⟩

/-- Model of the regex class `\s`. -/
def isWs (c : Char) : Bool :=
  c = ' ' || c = '\t' || c = '\n' || c = '\r'

/-- Strip `pat` (given in lowercase) case-insensitively from the front,
returning the remainder; models a literal word in a `/.../i` pattern. -/
def ciStrip (pat : Chars) (cs : Chars) : Option Chars :=
  match pat, cs with
  | [], rest => some rest
  | _ :: _, [] => none
  | p :: ps, c :: cs2 => if c.toLower = p then ciStrip ps cs2 else none

def natOfDigits (ds : Chars) : Nat :=
  ds.foldl (fun n c => n * 10 + (c.toNat - '0'.toNat)) 0

/-- Value of a `\d+\.?\d*` capture under JS `parseFloat` (exact here). -/
def ratOfDigits (intPart fracPart : Chars) : ℚ :=
  (natOfDigits (intPart ++ fracPart) : ℚ) / ((10 : ℚ) ^ fracPart.length)

/-- Greedy match of `(\d+\.?\d*)` at the current position, returning the
captured value and the remainder.  Greediness is exact: nothing follows the
capture in the patterns that use this. -/
def scanNum (cs : Chars) : Option (ℚ × Chars) :=
  match cs.span Char.isDigit with
  | ([], _) => none
  | (d :: ds, '.' :: r2) =>
    some (ratOfDigits (d :: ds) (r2.span Char.isDigit).1, (r2.span Char.isDigit).2)
  | (d :: ds, r1) => some (ratOfDigits (d :: ds) [], r1)

/-- Try the continuation on each candidate remainder in order: this is the
JS engine's backtracking order when the candidates are listed in pattern
order. -/
def pickFirst {α : Type} (ps : List Chars) (f : Chars → Option α) : Option α :=
  match ps with
  | [] => none
  | p :: rest =>
    match f p with
    | some a => some a
    | none => pickFirst rest f

/-- Leftmost match: try the position matcher at each index in order. -/
def scanFirst {α : Type} (f : Chars → Option α) : Chars → Option α
  | [] => f []
  | c :: rest =>
    match f (c :: rest) with
    | some a => some a
    | none => scanFirst f rest

/-- All matches of a global regex, `exec`-loop style: leftmost match, then
continue after its end.  Fuel bounds the recursion; every matcher used with
this consumes at least one character, so the fuel never runs out. -/
def collectAux {α : Type} (f : Chars → Option (α × Chars)) : Nat → Chars → List α
  | 0, _ => []
  | _ + 1, [] => []
  | fuel + 1, c :: rest =>
    match f (c :: rest) with
    | some (a, r) => a :: collectAux f fuel r
    | none => collectAux f fuel rest

def collectMatches {α : Type} (f : Chars → Option (α × Chars)) (cs : Chars) : List α :=
  collectAux f (cs.length + 1) cs

/-- `\s*`. -/
def dropWs (cs : Chars) : Chars :=
  cs.dropWhile isWs

/-- Candidate remainders for `\s?`, in greedy order. -/
def wsOptCands (p : Chars) : List Chars :=
  (match p with
   | c :: r => if isWs c then [r] else []
   | [] => []) ++ [p]

/-- Candidate remainders for `(?:@|:)?`, in pattern order. -/
def atColonCands (p : Chars) : List Chars :=
  (match p with | '@' :: r => [r] | _ => []) ++
  (match p with | ':' :: r => [r] | _ => []) ++ [p]

/-- The class `[A-Z0-9]` under `/i` (equivalently `[a-z0-9]` under `/i`). -/
def isPairChar (c : Char) : Bool :=
  c.isAlpha || c.isDigit

/-- The regex word class `\w` (for `\b` boundaries). -/
def isWordChar (c : Char) : Bool :=
  isPairChar c || c = '_'

/-! ### The emoji-format ("test signal") patterns of `parseSignal` -/

/-- Position matcher for `/SIGNAL:\s+([A-Z0-9]+\/[A-Z0-9]+)\s+(LONG|SHORT)/i`,
returning capture 1 exactly as matched (the source does not uppercase it). -/
def matchTestPairAt (cs : Chars) : Option String :=
  match ciStrip "signal:".data cs with
  | none => none
  | some r0 =>
    let w1 := r0.span isWs
    if w1.1.isEmpty then none
    else
      let a1 := w1.2.span isPairChar
      if a1.1.isEmpty then none
      else
        match a1.2 with
        | '/' :: r3 =>
          let a2 := r3.span isPairChar
          if a2.1.isEmpty then none
          else
            let w2 := a2.2.span isWs
            if w2.1.isEmpty then none
            else if (ciStrip "long".data w2.2).isSome || (ciStrip "short".data w2.2).isSome then
              some ⟨a1.1 ++ '/' :: a2.1⟩
            else none
        | _ => none

def extractTestPair (t : String) : Option String :=
  scanFirst matchTestPairAt t.data

/-- Position matcher for `/Entry:\s*(\d+\.?\d*)/i`. -/
def matchTestEntryAt (cs : Chars) : Option ℚ :=
  match ciStrip "entry:".data cs with
  | none => none
  | some r0 => (scanNum (dropWs r0)).map Prod.fst

def extractTestEntry (t : String) : Option ℚ :=
  scanFirst matchTestEntryAt t.data

/-- The keycap alternative `[1-3]️⃣` (digit, U+FE0F, U+20E3). -/
def keycapStrip (cs : Chars) : Option Chars :=
  match cs with
  | c :: '\uFE0F' :: '\u20E3' :: r =>
    if c = '1' || c = '2' || c = '3' then some r else none
  | _ => none

/-- Candidates for `(?:Target|[1-3]️⃣)`, in pattern order. -/
def kwTestCands (cs : Chars) : List Chars :=
  (match ciStrip "target".data cs with | some r => [r] | none => []) ++
  (match keycapStrip cs with | some r => [r] | none => [])

/-- Candidates for `(?:[0-9]+:)?`: the greedy digit run succeeds only when a
colon follows it directly (shorter runs are followed by a digit), then the
empty alternative. -/
def numColonCands (p : Chars) : List Chars :=
  (match p.span Char.isDigit with
   | (ds, ':' :: r2) => if ds.isEmpty then [] else [r2]
   | _ => []) ++ [p]

/-- Position matcher for `/(?:Target|[1-3]️⃣)\s*(?:[0-9]+:)?\s*(\d+\.?\d*)/gi`. -/
def matchTestTargetAt (cs : Chars) : Option (ℚ × Chars) :=
  pickFirst (kwTestCands cs) fun r0 =>
  pickFirst (numColonCands (dropWs r0)) fun r2 =>
  scanNum (dropWs r2)

def extractTestTargets (t : String) : List ℚ :=
  collectMatches matchTestTargetAt t.data

/-- Position matcher for `/Stop Loss:?\s*(\d+\.?\d*)/i`. -/
def matchTestStopAt (cs : Chars) : Option ℚ :=
  match ciStrip "stop loss".data cs with
  | none => none
  | some r0 =>
    let r1 := match r0 with | ':' :: r => r | _ => r0
    (scanNum (dropWs r1)).map Prod.fst

def extractTestStop (t : String) : Option ℚ :=
  scanFirst matchTestStopAt t.data

/-! ### The loose-keyword-format patterns of `parseSignal` -/

def hasDirectionCue (t : String) : Bool :=
  jsIncludes (lowerStr t) "buy" || jsIncludes (lowerStr t) "sell" ||
  jsIncludes (lowerStr t) "long" || jsIncludes (lowerStr t) "short"

def hasTargetCue (t : String) : Bool :=
  jsIncludes (lowerStr t) "target" || jsIncludes (lowerStr t) "tp" ||
  jsIncludes (lowerStr t) "take profit"

/-- Position matcher (word-start positions only) for
`/\b([a-z0-9]{2,10}\/[a-z0-9]{2,10})\b|\b([a-z0-9]{2,10}[/|-][a-z0-9]{2,10})\b|\b([a-z0-9]{1,10})\b/i`,
returning the whole match.  The bounded greedy runs cannot backtrack
usefully (a shorter run is still followed by a run character), so each
alternative reduces to the conditions checked here. -/
def matchMainPairAt (cs : Chars) : Option String :=
  let s1 := cs.span isPairChar
  let okEnd : Chars → Bool := fun r =>
    match r with
    | [] => true
    | c :: _ => !isWordChar c
  let sepAlt : Option String :=
    if 2 ≤ s1.1.length ∧ s1.1.length ≤ 10 then
      match s1.2 with
      | c :: r2 =>
        if c = '/' || c = '|' || c = '-' then
          let s2 := r2.span isPairChar
          if 2 ≤ s2.1.length ∧ s2.1.length ≤ 10 ∧ okEnd s2.2 then
            some ⟨s1.1 ++ c :: s2.1⟩
          else none
        else none
      | [] => none
    else none
  match sepAlt with
  | some s => some s
  | none =>
    if 1 ≤ s1.1.length ∧ s1.1.length ≤ 10 ∧ okEnd s1.2 then some ⟨s1.1⟩ else none

/-- Scan for the pair pattern tracking the previous character, since every
alternative starts with `\b` followed by a run character. -/
def scanMainPair : Option Char → Chars → Option String
  | _, [] => none
  | prev, c :: rest =>
    if (match prev with | some p => !isWordChar p | none => true) && isPairChar c then
      match matchMainPairAt (c :: rest) with
      | some s => some s
      | none => scanMainPair (some c) rest
    else scanMainPair (some c) rest

/-- `text.match(pairRegex)` followed by the source's `.toUpperCase()`. -/
def extractMainPair (t : String) : Option String :=
  (scanMainPair none t.data).map upperStr

/-- Candidates for `(?:\sat|:|\s|price)?` after `entry`, in pattern order. -/
def entryJoinCands (r0 : Chars) : List Chars :=
  (match r0 with
   | c :: r =>
     if isWs c then (match ciStrip "at".data r with | some r2 => [r2] | none => []) else []
   | [] => []) ++
  (match r0 with | ':' :: r => [r] | _ => []) ++
  (match r0 with
   | c :: r => if isWs c then [r] else []
   | [] => []) ++
  (match ciStrip "price".data r0 with | some r => [r] | none => []) ++ [r0]

/-- Position matcher for `/entry(?:\sat|:|\s|price)?\s?(?:@|:)?\s?(\d+\.?\d*)/i`. -/
def matchMainEntryAt (cs : Chars) : Option ℚ :=
  match ciStrip "entry".data cs with
  | none => none
  | some r0 =>
    pickFirst (entryJoinCands r0) fun r1 =>
    pickFirst (wsOptCands r1) fun r2 =>
    pickFirst (atColonCands r2) fun r3 =>
    pickFirst (wsOptCands r3) fun r4 =>
    (scanNum r4).map Prod.fst

def extractMainEntry (t : String) : Option ℚ :=
  scanFirst matchMainEntryAt t.data

/-- Candidates for `(buy|sell|long|short)`, in pattern order. -/
def dirKwCands (cs : Chars) : List Chars :=
  (match ciStrip "buy".data cs with | some r => [r] | none => []) ++
  (match ciStrip "sell".data cs with | some r => [r] | none => []) ++
  (match ciStrip "long".data cs with | some r => [r] | none => []) ++
  (match ciStrip "short".data cs with | some r => [r] | none => [])

/-- Candidates for `(?:@|at)?`, in pattern order. -/
def atWordCands (p : Chars) : List Chars :=
  (match p with | '@' :: r => [r] | _ => []) ++
  (match ciStrip "at".data p with | some r => [r] | none => []) ++ [p]

/-- Position matcher for `/(buy|sell|long|short)\s(?:@|at)?\s?(\d+\.?\d*)/i`,
capture 2. -/
def matchSimplePriceAt (cs : Chars) : Option ℚ :=
  pickFirst (dirKwCands cs) fun r0 =>
  match r0 with
  | c :: r1 =>
    if isWs c then
      pickFirst (atWordCands r1) fun r2 =>
      pickFirst (wsOptCands r2) fun r3 =>
      (scanNum r3).map Prod.fst
    else none
  | [] => none

def extractSimplePrice (t : String) : Option ℚ :=
  scanFirst matchSimplePriceAt t.data

/-- Candidates for `(?:target|tp|take profit)`, in pattern order. -/
def kwMainTargetCands (cs : Chars) : List Chars :=
  (match ciStrip "target".data cs with | some r => [r] | none => []) ++
  (match ciStrip "tp".data cs with | some r => [r] | none => []) ++
  (match ciStrip "take profit".data cs with | some r => [r] | none => [])

/-- Remainders after `\d+` taking k digits, for k from the full run down
to 1 (the JS greedy backtracking order). -/
def digitCands (p : Chars) : List Chars :=
  let n := (p.span Char.isDigit).1.length
  (List.range n).map fun i => p.drop (n - i)

/-- Candidates for `(?:\s?(?:\d+))?`, in backtracking order: whitespace
consumed then each digit count, no whitespace then each digit count, then
the empty alternative. -/
def numOptCands (cs : Chars) : List Chars :=
  (match cs with
   | c :: r => if isWs c then digitCands r else []
   | [] => []) ++
  digitCands cs ++ [cs]

/-- Candidates for `(?:\sat|:|\s)?`, in pattern order. -/
def joinCands (p : Chars) : List Chars :=
  (match p with
   | c :: r =>
     if isWs c then (match ciStrip "at".data r with | some r2 => [r2] | none => []) else []
   | [] => []) ++
  (match p with | ':' :: r => [r] | _ => []) ++
  (match p with
   | c :: r => if isWs c then [r] else []
   | [] => []) ++ [p]

/-- Position matcher for
`/(?:target|tp|take profit)(?:\s?(?:\d+))?(?:\sat|:|\s)?(?:@|:)?\s?(\d+\.?\d*)/gi`. -/
def matchMainTargetAt (cs : Chars) : Option (ℚ × Chars) :=
  pickFirst (kwMainTargetCands cs) fun r0 =>
  pickFirst (numOptCands r0) fun r1 =>
  pickFirst (joinCands r1) fun r2 =>
  pickFirst (atColonCands r2) fun r3 =>
  pickFirst (wsOptCands r3) fun r4 =>
  scanNum r4

def extractMainTargets (t : String) : List ℚ :=
  collectMatches matchMainTargetAt t.data

/-- Candidates for `(?:stop loss|sl|stop)`, in pattern order. -/
def kwStopCands (cs : Chars) : List Chars :=
  (match ciStrip "stop loss".data cs with | some r => [r] | none => []) ++
  (match ciStrip "sl".data cs with | some r => [r] | none => []) ++
  (match ciStrip "stop".data cs with | some r => [r] | none => [])

/-- Position matcher for `/(?:stop loss|sl|stop)(?:\sat|:|\s)?(?:@|:)?\s?(\d+\.?\d*)/i`. -/
def matchMainStopAt (cs : Chars) : Option ℚ :=
  pickFirst (kwStopCands cs) fun r0 =>
  pickFirst (joinCands r0) fun r1 =>
  pickFirst (atColonCands r1) fun r2 =>
  pickFirst (wsOptCands r2) fun r3 =>
  (scanNum r3).map Prod.fst

def extractMainStop (t : String) : Option ℚ :=
  scanFirst matchMainStopAt t.data

/-! ### Data model -/

inductive Direction where
  | BUY
  | SELL
deriving DecidableEq

inductive SignalStatus where
  | ACTIVE
  | COMPLETED
  | STOPPED
deriving DecidableEq

structure Target where
  number : Nat
  price : ℚ
  /-- The source stores `profitPercent.toFixed(2)` (a string read back with
  `parseFloat`); modelled as the exactly rounded rational. -/
  profitPercent : ℚ
  hit : Bool
  timestamp : Option Nat
deriving DecidableEq

structure Signal where
  pair : String
  direction : Direction
  entryPrice : ℚ
  targets : List Target
  stopLoss : Option ℚ
  maxLoss : Option ℚ
  stopped : Bool
  timestamp : Nat
  completed : Bool
  status : SignalStatus
  originalText : String
  destinationChannel : Option String := none
  messageId : Option String := none
  chatId : Option String := none
  sourceMessage : Option String := none
  createdAt : Option Nat := none
  completedAt : Option Nat := none
  stoppedAt : Option Nat := none
deriving DecidableEq

def dirIsBuy : Direction → Bool
  | .BUY => true
  | .SELL => false

/-- JS `Number.prototype.toFixed(2)` as exact decimal rounding: the ECMA rule
picks the representable `n / 100` closest to the value, the larger `n` on a
tie. -/
def toFixed2 (q : ℚ) : ℚ :=
  ((q * 100 + 1 / 2).floor : ℚ) / 100

/-- The profit computation of `parseSignal` for one target. -/
def rawProfit (isBuy : Bool) (entry target : ℚ) : ℚ :=
  if isBuy then (target - entry) / entry * 100 else (entry - target) / entry * 100

/-- The `maxLoss` computation of `parseSignal`. -/
def rawMaxLoss (isBuy : Bool) (entry sl : ℚ) : ℚ :=
  if isBuy then (entry - sl) / entry * 100 else (sl - entry) / entry * 100

/-- `targets.map((target, index) => ...)` of `parseSignal`, with the 1-based
number, the rounded stored profit, `hit: false` and a null timestamp. -/
def mkProfitTargetsFrom (isBuy : Bool) (entry : ℚ) : Nat → List ℚ → List Target
  | _, [] => []
  | i, p :: ps =>
    { number := i + 1, price := p, profitPercent := toFixed2 (rawProfit isBuy entry p),
      hit := false, timestamp := none } :: mkProfitTargetsFrom isBuy entry (i + 1) ps

def mkProfitTargets (isBuy : Bool) (entry : ℚ) (ps : List ℚ) : List Target :=
  mkProfitTargetsFrom isBuy entry 0 ps

/-- Descending comparison used for SELL target sorting. -/
def geRel (a b : ℚ) : Prop := b ≤ a

instance : DecidableRel geRel := fun a b => inferInstanceAs (Decidable (b ≤ a))

instance : IsTotal ℚ geRel := ⟨fun a b => le_total b a⟩

instance : IsTrans ℚ geRel := ⟨fun _ _ _ h1 h2 => le_trans h2 h1⟩

/-- `targets.sort((a,b) => a - b)` for buys, `(a,b) => b - a` for sells. -/
def sortTargets (isBuy : Bool) (ps : List ℚ) : List ℚ :=
  if isBuy then ps.insertionSort (· ≤ ·) else ps.insertionSort geRel

/-- The signal object literal both branches of `parseSignal` return. -/
def mkSignal (now : Nat) (text pair : String) (isBuy : Bool) (entry : ℚ)
    (prices : List ℚ) (sl : Option ℚ) : Signal :=
  { pair := pair
    direction := if isBuy then .BUY else .SELL
    entryPrice := entry
    targets := mkProfitTargets isBuy entry (sortTargets isBuy prices)
    stopLoss := sl
    maxLoss := sl.map fun l => toFixed2 (rawMaxLoss isBuy entry l)
    stopped := false
    timestamp := now
    completed := false
    status := .ACTIVE
    originalText := text }

def hasTestMarker (t : String) : Bool :=
  jsIncludes t "📈 SIGNAL:" || jsIncludes t "📉 SIGNAL:"

/-- The emoji-format branch of `parseSignal`.  `if (!entryPrice) return null`
rejects both a failed match and a parsed value of 0 (`parseFloat` of the
capture is never NaN). -/
def parseTestBranch (now : Nat) (text : String) : Option Signal :=
  let pair := (extractTestPair text).getD "BTC/USDT"
  let isBuy := jsIncludes (lowerStr text) "long"
  match extractTestEntry text with
  | none => none
  | some e =>
    if e = 0 then none
    else some (mkSignal now text pair isBuy e (extractTestTargets text) (extractTestStop text))

/-- Entry resolution of the loose branch: the labelled `entry` pattern first,
then the `(buy|sell|long|short) <number>` fallback. -/
def mainEntryOpt (text : String) : Option ℚ :=
  match extractMainEntry text with
  | some q => some q
  | none => extractSimplePrice text

/-- The loose-keyword branch of `parseSignal`: cue gate, pair extraction with
the `/USDT` default (the source checks only `/` and `-`, not `|`), direction,
entry (zero and NaN rejected), targets, stop loss. -/
def parseMainBranch (now : Nat) (text : String) : Option Signal :=
  if hasDirectionCue text && hasTargetCue text then
    match extractMainPair text with
    | none => none
    | some p0 =>
      let pair := if jsIncludes p0 "/" || jsIncludes p0 "-" then p0 else p0 ++ "/USDT"
      let isBuy := jsIncludes (lowerStr text) "buy" || jsIncludes (lowerStr text) "long"
      match mainEntryOpt text with
      | none => none
      | some e =>
        if e = 0 then none
        else some (mkSignal now text pair isBuy e (extractMainTargets text) (extractMainStop text))
  else none

/-- `parseSignal` of src/src/services/pnlService.js: the emoji-format branch
when its marker is present, otherwise the loose-keyword branch. -/
def parseSignal (now : Nat) (text : String) : Option Signal :=
  if hasTestMarker text then parseTestBranch now text else parseMainBranch now text

/-! ### The Redis-backed store -/

def getAssoc (l : List (String × Signal)) (k : String) : Option Signal :=
  match l with
  | [] => none
  | kv :: rest => if kv.1 = k then some kv.2 else getAssoc rest k

/-- Redis `SET`: overwrite the value for the key, or append a fresh entry. -/
def setAssoc (l : List (String × Signal)) (k : String) (v : Signal) : List (String × Signal) :=
  match l with
  | [] => [(k, v)]
  | kv :: rest => if kv.1 = k then (k, v) :: rest else kv :: setAssoc rest k v

/-- Redis `SADD`: add unless present. -/
def addElem (l : List String) (x : String) : List String :=
  if x ∈ l then l else l ++ [x]

/-- Redis `SET key 1 EX ttl`: record the key with its expiry instant. -/
def setExpiry (l : List (String × Nat)) (k : String) (e : Nat) : List (String × Nat) :=
  match l with
  | [] => [(k, e)]
  | kv :: rest => if kv.1 = k then (k, e) :: rest else kv :: setExpiry rest k e

/-- Redis `EXISTS` on a key with a ttl: present and not yet expired. -/
def hasLiveKey (l : List (String × Nat)) (k : String) (now : Nat) : Bool :=
  l.any fun kv => kv.1 = k && now < kv.2

/-- The Redis state touched by the tracker: signal records keyed by id, the
`active_signals` and `completed_signals` sets, the per-pair `signals:{pair}`
sets, and the `signal:hash:` dedupe keys with their expiries. -/
structure Store where
  records : List (String × Signal)
  active : List String
  completedSet : List String
  pairIndex : List (String × List String)
  dedupe : List (String × Nat)
deriving DecidableEq

def Store.get (st : Store) (id : String) : Option Signal :=
  getAssoc st.records id

def addToPairIndex (idx : List (String × List String)) (pair id : String) :
    List (String × List String) :=
  match idx with
  | [] => [(pair, [id])]
  | kv :: rest =>
    if kv.1 = pair then (kv.1, addElem kv.2 id) :: rest else kv :: addToPairIndex rest pair id

/-- Injective rendering of a rational for the dedupe key (stands in for the
JS number-to-string conversion; only key equality matters). -/
def qKey (q : ℚ) : String :=
  toString q.num ++ "d" ++ toString q.den

def dirToStr : Direction → String
  | .BUY => "BUY"
  | .SELL => "SELL"

/-- `signal:hash:${pair}-${direction}-${entryPrice}-${messageId}`. -/
def dedupeKey (sig : Signal) (msgId : String) : String :=
  "signal:hash:" ++ sig.pair ++ "-" ++ dirToStr sig.direction ++ "-" ++
    qKey sig.entryPrice ++ "-" ++ msgId

structure Message where
  messageId : String
  chatId : String
  text : String
  messageType : String
deriving DecidableEq

/-- `storeSignal`: dedupe check (24h = 86400s expiry), id from the pair and
the current clock, the record extended with the message fields, and the
`active_signals` and per-pair index insertions.  Returns the stored id, or
none for a dedupe hit. -/
def storeSignal (now : Nat) (sig : Signal) (msg : Message) (st : Store) :
    Option String × Store :=
  let key := dedupeKey sig msg.messageId
  if hasLiveKey st.dedupe key now then (none, st)
  else
    let signalId := "signal:" ++ sig.pair ++ ":" ++ toString now
    let data := { sig with
      messageId := some msg.messageId
      chatId := some msg.chatId
      sourceMessage := some msg.text
      createdAt := some now }
    (some signalId,
     { st with
       dedupe := setExpiry st.dedupe key (now + 86400)
       records := setAssoc st.records signalId data
       active := addElem st.active signalId
       pairIndex := addToPairIndex st.pairIndex sig.pair signalId })

/-! ### The lifecycle tick -/

/-- `currentPrice >= target.price` for BUY, `<=` for SELL. -/
def targetHitCond (dir : Direction) (p : ℚ) (t : Target) : Bool :=
  match dir with
  | .BUY => decide (t.price ≤ p)
  | .SELL => decide (p ≤ t.price)

/-- The target loop of `updateSignalStatus`: mark every unhit target whose
condition holds, stamping the hit time. -/
def applyTargetHits (now : Nat) (dir : Direction) (p : ℚ) (ts : List Target) : List Target :=
  ts.map fun t =>
    if !t.hit && targetHitCond dir p t then { t with hit := true, timestamp := some now } else t

/-- Whether the target loop marked anything (the `signalUpdated` flag's
contribution from targets). -/
def anyNewHit (dir : Direction) (p : ℚ) (ts : List Target) : Bool :=
  ts.any fun t => !t.hit && targetHitCond dir p t

/-- `currentPrice <= stopLoss` for BUY, `>=` for SELL. -/
def stopCond (dir : Direction) (p sl : ℚ) : Bool :=
  match dir with
  | .BUY => decide (p ≤ sl)
  | .SELL => decide (sl ≤ p)

/-- The per-signal part of `updateSignalStatus`: targets first, then the
stop-loss check, then the all-targets-hit check (which sees the stop flag
just set, if any).  Returns the new signal, the `signalUpdated` flag and the
`signalCompleted` flag. -/
def signalTick (now : Nat) (p : ℚ) (sig : Signal) : Signal × Bool × Bool :=
  let ts2 := applyTargetHits now sig.direction p sig.targets
  let upd0 := anyNewHit sig.direction p sig.targets
  let s1 := { sig with targets := ts2 }
  let step2 : Signal × Bool × Bool :=
    match s1.stopLoss with
    | some sl =>
      if !s1.stopped && stopCond s1.direction p sl then
        ({ s1 with stopped := true, stoppedAt := some now, status := .STOPPED }, true, true)
      else (s1, false, false)
    | none => (s1, false, false)
  let s2 := step2.1
  let step3 : Signal × Bool × Bool :=
    if !s2.completed && !s2.stopped && s2.targets.all (·.hit) then
      ({ s2 with completed := true, completedAt := some now, status := .COMPLETED }, true, true)
    else (s2, false, false)
  (step3.1, upd0 || step2.2.1 || step3.2.1, step2.2.2 || step3.2.2)

/-- `updateSignalStatus` at the store level: write the record back when
anything changed, and on a terminal transition move the id from
`active_signals` to `completed_signals`. -/
def updateSignalStatus (now : Nat) (id : String) (sig : Signal) (p : ℚ) (st : Store) : Store :=
  let r := signalTick now p sig
  if r.2.1 then
    let st1 := { st with records := setAssoc st.records id r.1 }
    if r.2.2 then
      { st1 with active := st1.active.erase id, completedSet := addElem st1.completedSet id }
    else st1
  else st

def groupInsert (gs : List (String × List (String × Signal))) (pair : String)
    (it : String × Signal) : List (String × List (String × Signal)) :=
  match gs with
  | [] => [(pair, [it])]
  | g :: rest =>
    if g.1 = pair then (g.1, g.2 ++ [it]) :: rest else g :: groupInsert rest pair it

/-- `pairToSignals`: group the active snapshot by pair, in first-occurrence
order (JS string-keyed object insertion order). -/
def groupByPair (items : List (String × Signal)) : List (String × List (String × Signal)) :=
  items.foldl (fun gs it => groupInsert gs it.2.pair it) []

/-- The snapshot `updateSignals` reads before updating anything: each id of
`active_signals` paired with its record, ids without a record skipped. -/
def activeItems (st : Store) : List (String × Signal) :=
  st.active.filterMap fun id => (st.get id).map fun sig => (id, sig)

/-- The per-pair body of `updateSignals`: one oracle call; on failure the
whole group is skipped, otherwise each snapshot is evaluated at that price. -/
def tickGroup (now : Nat) (price : String → Option ℚ) (acc : Store)
    (g : String × List (String × Signal)) : Store :=
  match price g.1 with
  | none => acc
  | some p => g.2.foldl (fun acc2 it => updateSignalStatus now it.1 it.2 p acc2) acc

/-- `updateSignals`: read a snapshot of every record in `active_signals`,
group by pair, and evaluate group by group. -/
def updateSignals (now : Nat) (price : String → Option ℚ) (st : Store) : Store :=
  (groupByPair (activeItems st)).foldl (tickGroup now price) st

/-- A sequence of evaluation ticks, each with its clock and oracle. -/
def runTicks (ticks : List (Nat × (String → Option ℚ))) (st : Store) : Store :=
  ticks.foldl (fun acc t => updateSignals t.1 t.2 acc) st

/-! ### The manual overrides of src/src/cli/pnl-manager.js -/

/-- `completeSignal`: unconditionally mark every target hit and set
COMPLETED, moving the id from the active set to the completed set. -/
def completeSignal (now : Nat) (id : String) (st : Store) : Bool × Store :=
  match st.get id with
  | none => (false, st)
  | some sig =>
    let sig2 := { sig with
      targets := sig.targets.map fun t =>
        if !t.hit then { t with hit := true, timestamp := some now } else t
      completed := true
      completedAt := some now
      status := .COMPLETED }
    (true,
     { st with
       records := setAssoc st.records id sig2
       active := st.active.erase id
       completedSet := addElem st.completedSet id })

/-- `stopSignal`: unconditionally set STOPPED, moving the id from the active
set to the completed set. -/
def stopSignal (now : Nat) (id : String) (st : Store) : Bool × Store :=
  match st.get id with
  | none => (false, st)
  | some sig =>
    let sig2 := { sig with stopped := true, stoppedAt := some now, status := .STOPPED }
    (true,
     { st with
       records := setAssoc st.records id sig2
       active := st.active.erase id
       completedSet := addElem st.completedSet id })

/-! ### The reporting aggregator -/

structure SignalStats where
  total : Nat
  successful : Nat
  failed : Nat
  partiallySuccessful : Nat
  totalProfit : ℚ
  totalLoss : ℚ
  netProfit : ℚ
  /-- On an empty selection the source's JS division yields NaN; the rational
  model yields 0.  No claim touches that case. -/
  winRate : ℚ
  buyCount : Nat
  sellCount : Nat
  pairs : List (String × Nat)
deriving DecidableEq

def bumpPair (idx : List (String × Nat)) (p : String) : List (String × Nat) :=
  match idx with
  | [] => [(p, 1)]
  | kv :: rest => if kv.1 = p then (kv.1, kv.2 + 1) :: rest else kv :: bumpPair rest p

/-- Average of the stored per-target profits, used for fully hit signals. -/
def avgProfitOfAll (sig : Signal) : ℚ :=
  (sig.targets.map (·.profitPercent)).sum / (sig.targets.length : ℚ)

/-- The per-signal body of the loop in `calculateSignalStats`: direction and
pair tallies, then the if/else-if/else classification (all targets hit →
successful; no target hit and stopped → failed; otherwise partially
successful with the weighted profit/loss blend), then the average-profit
contribution of fully hit signals. -/
def statsStep (acc : SignalStats) (sig : Signal) : SignalStats :=
  let acc1 := { acc with
    buyCount := if sig.direction = Direction.BUY then acc.buyCount + 1 else acc.buyCount
    sellCount := if sig.direction = Direction.SELL then acc.sellCount + 1 else acc.sellCount
    pairs := bumpPair acc.pairs sig.pair }
  let hits := sig.targets.countP (·.hit)
  let allHit := hits = sig.targets.length
  let noneHit := hits = 0
  let acc2 :=
    if allHit then { acc1 with successful := acc1.successful + 1 }
    else if noneHit ∧ sig.stopped then
      { acc1 with failed := acc1.failed + 1, totalLoss := acc1.totalLoss + sig.maxLoss.getD 0 }
    else
      let acc3 := { acc1 with partiallySuccessful := acc1.partiallySuccessful + 1 }
      if hits = 0 then acc3
      else
        let targetPortion : ℚ := 1 / (sig.targets.length : ℚ)
        let profit0 :=
          (sig.targets.filter (·.hit)).foldl (fun s t => s + t.profitPercent * targetPortion) 0
        let profit :=
          if sig.stopped then
            profit0 - sig.maxLoss.getD 0 * (1 - (hits : ℚ) * targetPortion)
          else profit0
        if 0 < profit then { acc3 with totalProfit := acc3.totalProfit + profit }
        else { acc3 with totalLoss := acc3.totalLoss - profit }
  if allHit then { acc2 with totalProfit := acc2.totalProfit + avgProfitOfAll sig } else acc2

def initStats (n : Nat) : SignalStats :=
  { total := n, successful := 0, failed := 0, partiallySuccessful := 0,
    totalProfit := 0, totalLoss := 0, netProfit := 0, winRate := 0,
    buyCount := 0, sellCount := 0, pairs := [] }

/-- `calculateSignalStats` of src/src/services/pnlService.js. -/
def calculateSignalStats (signals : List Signal) : SignalStats :=
  let s := signals.foldl statsStep (initStats signals.length)
  { s with
    netProfit := s.totalProfit - s.totalLoss
    winRate := (((s.successful : ℚ) + (s.partiallySuccessful : ℚ)) / (s.total : ℚ)) * 100 }

/-! ### Ingestion and backfill -/

/-- `getDestinationForSource`: the mapping entry when present and truthy,
else the configured fallback channel when truthy, else none. -/
def getDestinationForSource (mapping : List (String × String))
    (resultChannel : Option String) (chatId : String) : Option String :=
  let fallback :=
    match resultChannel with
    | some r => if r = "" then none else some r
    | none => none
  match mapping.lookup chatId with
  | some d => if d = "" then fallback else some d
  | none => fallback

/-- `processMessage`: destination lookup, the `crypto_signal` type check,
parse, and store.  Returns true whenever a signal was parsed — the store
call's dedupe no-op does not change the return value. -/
def processMessage (now : Nat) (mapping : List (String × String))
    (resultChannel : Option String) (msg : Message) (st : Store) : Bool × Store :=
  match getDestinationForSource mapping resultChannel msg.chatId with
  | none => (false, st)
  | some dest =>
    if msg.messageType = "crypto_signal" then
      match parseSignal now msg.text with
      | none => (false, st)
      | some sig =>
        let sig2 := { sig with destinationChannel := some dest }
        (true, (storeSignal now sig2 msg st).2)
    else (false, st)

/-- A fetched historical message: an id and possibly text. -/
structure RawMsg where
  id : String
  text : Option String
deriving DecidableEq

/-- The loop body of `backfillSignals`: skip a message without text,
otherwise replay it through `processMessage` as a `crypto_signal` and count
it when that returned true. -/
def backfillStep (now : Nat) (mapping : List (String × String))
    (resultChannel : Option String) (channelId : String)
    (acc : Nat × Store) (m : RawMsg) : Nat × Store :=
  match m.text with
  | none => acc
  | some tx =>
    let r := processMessage now mapping resultChannel
      { messageId := m.id, chatId := channelId, text := tx,
        messageType := "crypto_signal" } acc.2
    (if r.1 then acc.1 + 1 else acc.1, r.2)

/-- `backfillSignals`: resolve the destination (throwing, modelled as none,
when unconfigured), take up to `limit` fetched messages, and replay them.
The channel-id reformatting for the fetch collaborator is absorbed into the
`fetched` parameter. -/
def backfillSignals (now : Nat) (mapping : List (String × String))
    (resultChannel : Option String) (channelId : String) (limit : Nat)
    (fetched : List RawMsg) (st : Store) : Option (Nat × Store) :=
  match getDestinationForSource mapping resultChannel channelId with
  | none => none
  | some _ =>
    some ((fetched.take limit).foldl (backfillStep now mapping resultChannel channelId) (0, st))

/-! ### Supporting lemmas: the parser -/

theorem ratOfDigits_nonneg (a b : Chars) : 0 ≤ ratOfDigits a b := by
  unfold ratOfDigits
  positivity

theorem scanNum_nonneg {cs : Chars} {q : ℚ} {r : Chars}
    (h : scanNum cs = some (q, r)) : 0 ≤ q := by
  unfold scanNum at h
  split at h
  · exact Option.noConfusion h
  · obtain ⟨hq, -⟩ := Prod.mk.injEq .. ▸ Option.some.inj h
    exact hq ▸ ratOfDigits_nonneg ..
  · obtain ⟨hq, -⟩ := Prod.mk.injEq .. ▸ Option.some.inj h
    exact hq ▸ ratOfDigits_nonneg ..

theorem pickFirst_prop {α : Type} {P : α → Prop} {f : Chars → Option α}
    (hf : ∀ cs a, f cs = some a → P a) :
    ∀ (ps : List Chars) (a : α), pickFirst ps f = some a → P a := by
  intro ps
  induction ps with
  | nil => intro a h; exact Option.noConfusion h
  | cons p rest ih =>
    intro a h
    unfold pickFirst at h
    split at h
    · rename_i b heq
      exact (Option.some.inj h) ▸ hf p b heq
    · exact ih a h

theorem scanFirst_prop {α : Type} {P : α → Prop} {f : Chars → Option α}
    (hf : ∀ cs a, f cs = some a → P a) :
    ∀ (cs : Chars) (a : α), scanFirst f cs = some a → P a := by
  intro cs
  induction cs with
  | nil => intro a h; exact hf [] a h
  | cons c rest ih =>
    intro a h
    unfold scanFirst at h
    split at h
    · rename_i b heq
      exact (Option.some.inj h) ▸ hf (c :: rest) b heq
    · exact ih a h

theorem optMapFst_nonneg {o : Option (ℚ × Chars)} {q : ℚ}
    (ho : ∀ a b, o = some (a, b) → 0 ≤ a) (h : o.map Prod.fst = some q) : 0 ≤ q := by
  cases o with
  | none => exact Option.noConfusion h
  | some v => exact (Option.some.inj h) ▸ ho v.1 v.2 rfl

theorem matchTestEntryAt_nonneg : ∀ (cs : Chars) (q : ℚ),
    matchTestEntryAt cs = some q → 0 ≤ q := by
  intro cs q h
  unfold matchTestEntryAt at h
  split at h
  · exact Option.noConfusion h
  · exact optMapFst_nonneg (fun a b hab => scanNum_nonneg hab) h

theorem extractTestEntry_nonneg {t : String} {q : ℚ}
    (h : extractTestEntry t = some q) : 0 ≤ q :=
  scanFirst_prop matchTestEntryAt_nonneg t.data q h

theorem matchMainEntryAt_nonneg : ∀ (cs : Chars) (q : ℚ),
    matchMainEntryAt cs = some q → 0 ≤ q := by
  intro cs q h
  unfold matchMainEntryAt at h
  split at h
  · exact Option.noConfusion h
  · refine pickFirst_prop (fun r1 a h1 => ?_) _ q h
    refine pickFirst_prop (fun r2 a2 h2 => ?_) _ a h1
    refine pickFirst_prop (fun r3 a3 h3 => ?_) _ a2 h2
    refine pickFirst_prop (fun r4 a4 h4 => ?_) _ a3 h3
    exact optMapFst_nonneg (fun x y hxy => scanNum_nonneg hxy) h4

theorem matchSimplePriceAt_nonneg : ∀ (cs : Chars) (q : ℚ),
    matchSimplePriceAt cs = some q → 0 ≤ q := by
  intro cs q h
  unfold matchSimplePriceAt at h
  refine pickFirst_prop (fun r0 a h0 => ?_) _ q h
  split at h0
  · split at h0
    · refine pickFirst_prop (fun r2 a2 h2 => ?_) _ a h0
      refine pickFirst_prop (fun r3 a3 h3 => ?_) _ a2 h2
      exact optMapFst_nonneg (fun x y hxy => scanNum_nonneg hxy) h3
    · exact Option.noConfusion h0
  · exact Option.noConfusion h0

theorem extractMainEntry_nonneg {t : String} {q : ℚ}
    (h : extractMainEntry t = some q) : 0 ≤ q :=
  scanFirst_prop matchMainEntryAt_nonneg t.data q h

theorem extractSimplePrice_nonneg {t : String} {q : ℚ}
    (h : extractSimplePrice t = some q) : 0 ≤ q :=
  scanFirst_prop matchSimplePriceAt_nonneg t.data q h

theorem mainEntryOpt_nonneg {t : String} {q : ℚ}
    (h : mainEntryOpt t = some q) : 0 ≤ q := by
  unfold mainEntryOpt at h
  split at h
  · rename_i q0 heq
    exact (Option.some.inj h) ▸ extractMainEntry_nonneg heq
  · exact extractSimplePrice_nonneg h

/-- Everything `parseSignal` returns is the standard signal literal built
from a positive entry price. -/
theorem parseSignal_inv {now : Nat} {t : String} {s : Signal}
    (h : parseSignal now t = some s) :
    ∃ isBuy pair e prices sl, 0 < e ∧ s = mkSignal now t pair isBuy e prices sl := by
  unfold parseSignal at h
  split at h
  · unfold parseTestBranch at h
    simp only at h
    split at h
    · exact Option.noConfusion h
    · rename_i e he
      split at h
      · exact Option.noConfusion h
      · rename_i h0
        refine ⟨_, _, e, _, _, ?_, (Option.some.inj h).symm⟩
        exact lt_of_le_of_ne (extractTestEntry_nonneg he) (Ne.symm h0)
  · unfold parseMainBranch at h
    split at h
    · split at h
      · exact Option.noConfusion h
      · simp only at h
        split at h
        · exact Option.noConfusion h
        · rename_i e he
          split at h
          · exact Option.noConfusion h
          · rename_i h0
            refine ⟨_, _, e, _, _, ?_, (Option.some.inj h).symm⟩
            exact lt_of_le_of_ne (mainEntryOpt_nonneg he) (Ne.symm h0)
    · exact Option.noConfusion h

theorem mkProfitTargetsFrom_price_map (b : Bool) (e : ℚ) :
    ∀ (i : Nat) (ps : List ℚ), (mkProfitTargetsFrom b e i ps).map (·.price) = ps := by
  intro i ps
  induction ps generalizing i with
  | nil => rfl
  | cons p rest ih => simp [mkProfitTargetsFrom, ih]

theorem mkProfitTargetsFrom_mem (b : Bool) (e : ℚ) :
    ∀ (i : Nat) (ps : List ℚ) (tg : Target), tg ∈ mkProfitTargetsFrom b e i ps →
      tg.price ∈ ps ∧ tg.profitPercent = toFixed2 (rawProfit b e tg.price) := by
  intro i ps
  induction ps generalizing i with
  | nil => intro tg h; exact absurd h (List.not_mem_nil tg)
  | cons p rest ih =>
    intro tg h
    rcases List.mem_cons.mp h with h1 | h2
    · subst h1
      exact ⟨List.mem_cons_self .., rfl⟩
    · obtain ⟨hm, hp⟩ := ih (i + 1) tg h2
      exact ⟨List.mem_cons_of_mem p hm, hp⟩

theorem sortTargets_sorted_le (ps : List ℚ) :
    List.Sorted (· ≤ ·) (sortTargets true ps) := by
  simpa [sortTargets] using List.sorted_insertionSort (· ≤ ·) ps

theorem sortTargets_sorted_ge (ps : List ℚ) :
    List.Sorted geRel (sortTargets false ps) := by
  simpa [sortTargets] using List.sorted_insertionSort geRel ps

theorem dirIsBuy_mk (b : Bool) :
    dirIsBuy (if b then Direction.BUY else Direction.SELL) = b := by
  cases b <;> rfl

theorem rawProfit_pos_iff (b : Bool) (e p : ℚ) (he : 0 < e) :
    (0 < rawProfit b e p ↔ (if b then e < p else p < e)) := by
  have h100 : (0 : ℚ) < 100 := by norm_num
  cases b with
  | true =>
    simp only [rawProfit, if_pos rfl, if_true]
    constructor
    · intro hlt
      by_contra hc
      push_neg at hc
      have h1 : p - e ≤ 0 := sub_nonpos.mpr hc
      have h2 : (p - e) / e ≤ 0 := div_nonpos_of_nonpos_of_nonneg h1 (le_of_lt he)
      nlinarith
    · intro hlt
      have h1 : 0 < p - e := sub_pos.mpr hlt
      exact mul_pos (div_pos h1 he) h100
  | false =>
    simp only [rawProfit, Bool.false_eq_true, if_false]
    constructor
    · intro hlt
      by_contra hc
      push_neg at hc
      have h1 : e - p ≤ 0 := sub_nonpos.mpr hc
      have h2 : (e - p) / e ≤ 0 := div_nonpos_of_nonpos_of_nonneg h1 (le_of_lt he)
      nlinarith
    · intro hlt
      have h1 : 0 < e - p := sub_pos.mpr hlt
      exact mul_pos (div_pos h1 he) h100

/-! ### Supporting lemmas: the lifecycle tick -/

/-- Whether the stop branch of `updateSignalStatus` fires for a
not-yet-stopped signal at price `p`. -/
def tickStopFires (p : ℚ) (sig : Signal) : Bool :=
  match sig.stopLoss with
  | some sl => stopCond sig.direction p sl
  | none => false

/-- Complete characterization of one evaluation of `updateSignalStatus`'s
per-signal logic on a signal whose terminal flags are clear: targets are
updated first; the stop branch fires next and wins; completion fires only
when the stop branch did not. -/
theorem signalTick_char (now : Nat) (p : ℚ) (sig : Signal)
    (hc : sig.completed = false) (hs : sig.stopped = false) :
    (signalTick now p sig).1.targets = applyTargetHits now sig.direction p sig.targets ∧
    (tickStopFires p sig = true →
      (signalTick now p sig).1.status = SignalStatus.STOPPED ∧
      (signalTick now p sig).1.stoppedAt = some now ∧
      (signalTick now p sig).1.completedAt = sig.completedAt ∧
      (signalTick now p sig).1.stopped = true ∧
      (signalTick now p sig).1.completed = false) ∧
    (tickStopFires p sig = false →
      (applyTargetHits now sig.direction p sig.targets).all (·.hit) = true →
      (signalTick now p sig).1.status = SignalStatus.COMPLETED ∧
      (signalTick now p sig).1.completedAt = some now ∧
      (signalTick now p sig).1.stoppedAt = sig.stoppedAt ∧
      (signalTick now p sig).1.completed = true ∧
      (signalTick now p sig).1.stopped = false) ∧
    (tickStopFires p sig = false →
      (applyTargetHits now sig.direction p sig.targets).all (·.hit) = false →
      (signalTick now p sig).1.status = sig.status ∧
      (signalTick now p sig).1.completedAt = sig.completedAt ∧
      (signalTick now p sig).1.stoppedAt = sig.stoppedAt ∧
      (signalTick now p sig).1.completed = false ∧
      (signalTick now p sig).1.stopped = false) := by
  unfold signalTick tickStopFires
  cases hsl : sig.stopLoss with
  | none =>
    by_cases hall : (applyTargetHits now sig.direction p sig.targets).all (·.hit) = true
    · simp [hc, hs, hall]
    · simp only [Bool.not_eq_true] at hall
      simp [hc, hs, hall]
  | some sl =>
    by_cases hstop : stopCond sig.direction p sl = true
    · simp [hc, hs, hstop]
    · simp only [Bool.not_eq_true] at hstop
      by_cases hall : (applyTargetHits now sig.direction p sig.targets).all (·.hit) = true
      · simp [hc, hs, hstop, hall]
      · simp only [Bool.not_eq_true] at hall
        simp [hc, hs, hstop, hall]

/-! ### Supporting lemmas: the store -/

theorem getAssoc_set_self (l : List (String × Signal)) (k : String) (v : Signal) :
    getAssoc (setAssoc l k v) k = some v := by
  induction l with
  | nil => simp [setAssoc, getAssoc]
  | cons kv rest ih =>
    by_cases hk : kv.1 = k
    · simp [setAssoc, getAssoc, hk]
    · simp [setAssoc, getAssoc, hk, ih]

theorem getAssoc_set_ne (l : List (String × Signal)) (k : String) (v : Signal)
    (j : String) (h : j ≠ k) : getAssoc (setAssoc l k v) j = getAssoc l j := by
  have hkj : ¬k = j := fun hc => h hc.symm
  induction l with
  | nil =>
    simp only [setAssoc, getAssoc]
    rw [if_neg hkj]
  | cons kv rest ih =>
    by_cases hk : kv.1 = k
    · simp only [setAssoc, if_pos hk, getAssoc]
      rw [if_neg hkj, hk, if_neg hkj]
    · simp only [setAssoc, if_neg hk, getAssoc]
      split
      · rfl
      · exact ih

/-- `updateSignalStatus` touches only its own id: every other id keeps its
record and its active-set membership. -/
theorem updateSignalStatus_other (now : Nat) (id : String) (sig : Signal) (p : ℚ)
    (st : Store) (j : String) (h : j ≠ id) :
    (updateSignalStatus now id sig p st).get j = st.get j ∧
    (j ∈ (updateSignalStatus now id sig p st).active ↔ j ∈ st.active) := by
  simp only [updateSignalStatus, Store.get]
  by_cases hupd : (signalTick now p sig).2.1 = true
  · by_cases hterm : (signalTick now p sig).2.2 = true
    · rw [if_pos hupd, if_pos hterm]
      exact ⟨getAssoc_set_ne st.records id (signalTick now p sig).1 j h,
        List.mem_erase_of_ne h⟩
    · rw [if_pos hupd, if_neg hterm]
      exact ⟨getAssoc_set_ne st.records id (signalTick now p sig).1 j h, Iff.rfl⟩
  · rw [if_neg hupd]
    exact ⟨rfl, Iff.rfl⟩

/-- Folding `updateSignalStatus` over items whose ids all differ from `j`
leaves `j`'s record and membership unchanged. -/
theorem foldl_tick_other (now : Nat) (p : ℚ) (j : String) :
    ∀ (its : List (String × Signal)) (st : Store), (∀ it ∈ its, it.1 ≠ j) →
      ((its.foldl (fun acc2 it => updateSignalStatus now it.1 it.2 p acc2) st).get j =
        st.get j ∧
       (j ∈ (its.foldl (fun acc2 it => updateSignalStatus now it.1 it.2 p acc2) st).active ↔
        j ∈ st.active)) := by
  intro its
  induction its with
  | nil => intro st _; exact ⟨rfl, Iff.rfl⟩
  | cons it rest ih =>
    intro st hne
    have hit : it.1 ≠ j := hne it (List.mem_cons_self ..)
    have hrest : ∀ x ∈ rest, x.1 ≠ j := fun x hx => hne x (List.mem_cons_of_mem it hx)
    have hstep := updateSignalStatus_other now it.1 it.2 p st j (Ne.symm hit)
    have hind := ih (updateSignalStatus now it.1 it.2 p st) hrest
    simp only [List.foldl_cons]
    exact ⟨hind.1.trans hstep.1, hind.2.trans hstep.2⟩

/-- A group either has its price fetch failing or contains no item with
id `j`; in both cases `tickGroup` leaves `j` untouched. -/
theorem tickGroup_other (now : Nat) (price : String → Option ℚ) (j : String)
    (st : Store) (g : String × List (String × Signal))
    (hg : price g.1 = none ∨ ∀ it ∈ g.2, it.1 ≠ j) :
    ((tickGroup now price st g).get j = st.get j ∧
     (j ∈ (tickGroup now price st g).active ↔ j ∈ st.active)) := by
  unfold tickGroup
  cases hp : price g.1 with
  | none => exact ⟨rfl, Iff.rfl⟩
  | some pr =>
    rcases hg with hfail | hne
    · exact absurd (hfail ▸ hp) (Option.noConfusion)
    · exact foldl_tick_other now pr j g.2 st hne

theorem foldl_tickGroup_other (now : Nat) (price : String → Option ℚ) (j : String) :
    ∀ (gs : List (String × List (String × Signal))) (st : Store),
      (∀ g ∈ gs, price g.1 = none ∨ ∀ it ∈ g.2, it.1 ≠ j) →
      ((gs.foldl (tickGroup now price) st).get j = st.get j ∧
       (j ∈ (gs.foldl (tickGroup now price) st).active ↔ j ∈ st.active)) := by
  intro gs
  induction gs with
  | nil => intro st _; exact ⟨rfl, Iff.rfl⟩
  | cons g rest ih =>
    intro st hgs
    have hstep := tickGroup_other now price j st g (hgs g (List.mem_cons_self ..))
    have hind := ih (tickGroup now price st g)
      (fun x hx => hgs x (List.mem_cons_of_mem g hx))
    simp only [List.foldl_cons]
    exact ⟨hind.1.trans hstep.1, hind.2.trans hstep.2⟩

/-- Every snapshot item comes from the active set with its stored record. -/
theorem activeItems_spec (st : Store) (it : String × Signal) (h : it ∈ activeItems st) :
    it.1 ∈ st.active ∧ st.get it.1 = some it.2 := by
  unfold activeItems at h
  obtain ⟨a, ha, hfa⟩ := List.mem_filterMap.mp h
  cases hg : st.get a with
  | none => rw [hg] at hfa; exact Option.noConfusion hfa
  | some sig =>
    rw [hg] at hfa
    obtain hpair := Option.some.inj hfa
    have h1 : it.1 = a := by rw [← hpair]
    have h2 : it.2 = sig := by rw [← hpair]
    rw [h1, h2]
    exact ⟨ha, hg⟩

/-- `groupInsert` preserves the grouping invariant. -/
theorem groupInsert_good (P : String × Signal → Prop)
    (pair : String) (it : String × Signal) (hP : P it) (hpair : it.2.pair = pair) :
    ∀ (gs : List (String × List (String × Signal))),
      (∀ g ∈ gs, ∀ x ∈ g.2, P x ∧ x.2.pair = g.1) →
      ∀ g ∈ groupInsert gs pair it, ∀ x ∈ g.2, P x ∧ x.2.pair = g.1 := by
  intro gs
  induction gs with
  | nil =>
    intro _ g hg x hx
    simp only [groupInsert, List.mem_singleton] at hg
    subst hg
    simp only [List.mem_singleton] at hx
    subst hx
    exact ⟨hP, hpair⟩
  | cons g0 rest ih =>
    intro hgood g hg x hx
    unfold groupInsert at hg
    by_cases h0 : g0.1 = pair
    · rw [if_pos h0] at hg
      rcases List.mem_cons.mp hg with h1 | h2
      · subst h1
        rcases List.mem_append.mp hx with hx1 | hx2
        · exact hgood g0 (List.mem_cons_self ..) x hx1
        · simp only [List.mem_singleton] at hx2
          subst hx2
          exact ⟨hP, hpair.trans h0.symm⟩
      · exact hgood g (List.mem_cons_of_mem g0 h2) x hx
    · rw [if_neg h0] at hg
      rcases List.mem_cons.mp hg with h1 | h2
      · subst h1
        exact hgood g (List.mem_cons_self ..) x hx
      · exact ih (fun y hy => hgood y (List.mem_cons_of_mem g0 hy)) g h2 x hx

/-- Every item of every group of `groupByPair items` is an item of `items`
on the group's pair. -/
theorem groupByPair_good (P : String × Signal → Prop) (items : List (String × Signal))
    (hitems : ∀ it ∈ items, P it) :
    ∀ g ∈ groupByPair items, ∀ x ∈ g.2, P x ∧ x.2.pair = g.1 := by
  unfold groupByPair
  have main : ∀ (l : List (String × Signal)), (∀ it ∈ l, P it) →
      ∀ (gs : List (String × List (String × Signal))),
        (∀ g ∈ gs, ∀ x ∈ g.2, P x ∧ x.2.pair = g.1) →
        ∀ g ∈ l.foldl (fun acc it => groupInsert acc it.2.pair it) gs,
          ∀ x ∈ g.2, P x ∧ x.2.pair = g.1 := by
    intro l
    induction l with
    | nil => intro _ gs hgs; exact hgs
    | cons it rest ih =>
      intro hl gs hgs
      simp only [List.foldl_cons]
      exact ih (fun y hy => hl y (List.mem_cons_of_mem it hy)) _
        (groupInsert_good P it.2.pair it (hl it (List.mem_cons_self ..)) rfl gs hgs)
  exact main items hitems [] (fun g hg => absurd hg (List.not_mem_nil g))

/-! ### Supporting lemmas: dedupe, stats, backfill -/

theorem hasLiveKey_setExpiry (l : List (String × Nat)) (k : String) (e t2 : Nat)
    (ht : t2 < e) : hasLiveKey (setExpiry l k e) k t2 = true := by
  induction l with
  | nil => simp [setExpiry, hasLiveKey, ht]
  | cons kv rest ih =>
    by_cases hk : kv.1 = k
    · simp [setExpiry, if_pos hk, hasLiveKey, ht]
    · simp only [setExpiry, if_neg hk, hasLiveKey, List.any_cons]
      simp only [hasLiveKey] at ih
      rw [ih, Bool.or_true]

/-- Classification of one signal as `calculateSignalStats` sees it: every
target hit. -/
def isFullWin (sig : Signal) : Bool :=
  decide (sig.targets.countP (·.hit) = sig.targets.length)

/-- Not all targets hit, none hit, and stopped. -/
def isFail (sig : Signal) : Bool :=
  !isFullWin sig && decide (sig.targets.countP (·.hit) = 0) && sig.stopped

/-- The remaining case. -/
def isPartialWin (sig : Signal) : Bool :=
  !isFullWin sig && !isFail sig

theorem statsStep_counts (acc : SignalStats) (sig : Signal) :
    (statsStep acc sig).successful = acc.successful + (if isFullWin sig then 1 else 0) ∧
    (statsStep acc sig).failed = acc.failed + (if isFail sig then 1 else 0) ∧
    (statsStep acc sig).partiallySuccessful =
      acc.partiallySuccessful + (if isPartialWin sig then 1 else 0) := by
  simp only [statsStep]
  by_cases hall : List.countP (fun x => x.hit) sig.targets = sig.targets.length
  · simp only [if_pos hall]
    simp [isFullWin, isFail, isPartialWin, hall]
  · simp only [if_neg hall]
    by_cases hf : List.countP (fun x => x.hit) sig.targets = 0 ∧ sig.stopped = true
    · simp only [if_pos hf]
      have hlen : ¬(0 = sig.targets.length) := fun hh => hall (hf.1.trans hh)
      simp [isFullWin, isFail, isPartialWin, hall, hf.1, hf.2, hlen]
    · simp only [if_neg hf]
      have hfw : isFullWin sig = false := by simp [isFullWin, hall]
      have hfl : isFail sig = false := by
        simp only [isFail, hfw, Bool.not_false, Bool.true_and]
        by_cases hn : List.countP (fun x => x.hit) sig.targets = 0
        · have hs : sig.stopped = false := by
            by_contra hs1
            simp only [Bool.not_eq_false] at hs1
            exact hf ⟨hn, hs1⟩
          simp [hn, hs]
        · simp [hn]
      have hpw : isPartialWin sig = true := by simp [isPartialWin, hfw, hfl]
      simp only [hfw, hfl, hpw, Bool.false_eq_true, if_false, if_true]
      refine ⟨?_, ?_, ?_⟩ <;> (split_ifs <;> simp)

theorem foldl_statsStep_counts (l : List Signal) :
    ∀ acc : SignalStats,
      (l.foldl statsStep acc).successful = acc.successful + l.countP isFullWin ∧
      (l.foldl statsStep acc).failed = acc.failed + l.countP isFail ∧
      (l.foldl statsStep acc).partiallySuccessful =
        acc.partiallySuccessful + l.countP isPartialWin := by
  induction l with
  | nil => intro acc; simp
  | cons sig rest ih =>
    intro acc
    obtain ⟨h1, h2, h3⟩ := statsStep_counts acc sig
    obtain ⟨g1, g2, g3⟩ := ih (statsStep acc sig)
    simp only [List.foldl_cons, List.countP_cons]
    refine ⟨?_, ?_, ?_⟩
    · rw [g1, h1]; split_ifs <;> omega
    · rw [g2, h2]; split_ifs <;> omega
    · rw [g3, h3]; split_ifs <;> omega

theorem countP_partition (l : List Signal) :
    l.countP isFullWin + l.countP isFail + l.countP isPartialWin = l.length := by
  induction l with
  | nil => simp
  | cons sig rest ih =>
    simp only [List.countP_cons, List.length_cons]
    by_cases h1 : isFullWin sig = true
    · have h2 : isFail sig = false := by simp [isFail, h1]
      have h3 : isPartialWin sig = false := by simp [isPartialWin, h1]
      simp [h1, h2, h3]
      omega
    · simp only [Bool.not_eq_true] at h1
      by_cases h2 : isFail sig = true
      · have h3 : isPartialWin sig = false := by simp [isPartialWin, h2]
        simp [h1, h2, h3]
        omega
      · simp only [Bool.not_eq_true] at h2
        have h3 : isPartialWin sig = true := by simp [isPartialWin, h1, h2]
        simp [h1, h2, h3]
        omega

/-- Whether a fetched message contributes to the backfill count: it has text
and that text parses as a signal. -/
def backfillPred (now : Nat) (m : RawMsg) : Bool :=
  match m.text with
  | some tx => (parseSignal now tx).isSome
  | none => false

theorem processMessage_flag (now : Nat) (mapping : List (String × String))
    (resultChannel : Option String) (ch dest mid tx : String) (st : Store)
    (hd : getDestinationForSource mapping resultChannel ch = some dest) :
    (processMessage now mapping resultChannel
      { messageId := mid, chatId := ch, text := tx, messageType := "crypto_signal" } st).1 =
      (parseSignal now tx).isSome := by
  unfold processMessage
  dsimp only
  rw [hd]
  dsimp only
  rw [if_pos rfl]
  cases hp : parseSignal now tx with
  | none => rfl
  | some sig => rfl

theorem foldl_backfillStep_count (now : Nat) (mapping : List (String × String))
    (resultChannel : Option String) (ch dest : String)
    (hd : getDestinationForSource mapping resultChannel ch = some dest)
    (msgs : List RawMsg) :
    ∀ acc : Nat × Store,
      (msgs.foldl (backfillStep now mapping resultChannel ch) acc).1 =
        acc.1 + msgs.countP (backfillPred now) := by
  induction msgs with
  | nil => intro acc; simp
  | cons m rest ih =>
    intro acc
    simp only [List.foldl_cons, List.countP_cons]
    rw [ih]
    cases hm : m.text with
    | none =>
      simp only [backfillStep, hm, backfillPred, Bool.false_eq_true, if_false]
      omega
    | some tx =>
      simp only [backfillStep, hm, backfillPred]
      rw [processMessage_flag now mapping resultChannel ch dest m.id tx acc.2 hd]
      by_cases hp : (parseSignal now tx).isSome = true
      · simp only [if_pos hp]
        omega
      · simp only [Bool.not_eq_true] at hp
        simp only [hp, Bool.false_eq_true, if_false]
        omega

/-- Frame lemma shared by the tick claims: an id outside `active_signals`
is untouched by one `updateSignals` run. -/
theorem updateSignals_not_active_frame (now : Nat) (price : String → Option ℚ)
    (st : Store) (id : String) (hact : id ∉ st.active) :
    (updateSignals now price st).get id = st.get id ∧
    (id ∈ (updateSignals now price st).active ↔ id ∈ st.active) := by
  unfold updateSignals
  apply foldl_tickGroup_other
  intro g hgmem
  right
  intro it hit
  have hspec := groupByPair_good (fun x => x ∈ activeItems st) (activeItems st)
    (fun _ hx => hx) g hgmem it hit
  have h2 := activeItems_spec st it hspec.1
  intro hcon
  exact hact (hcon ▸ h2.1)

/-! ### The claims -/

/-- C1 (amended): for every ACTIVE signal evaluated in one tick at price P,
unhit-target hits are applied first, but the stop check runs before the
completion check, not after it: the signal ends the tick STOPPED whenever
the stop condition ((LONG and P ≤ stop) or (SHORT and P ≥ stop)) holds —
even when that tick's hits have marked every target hit — and ends
COMPLETED exactly when all targets are hit and the stop condition does not
hold. -/
theorem c1_tick_stop_precedence (now : Nat) (p : ℚ) (sig : Signal)
    (hst : sig.status = SignalStatus.ACTIVE) (hc : sig.completed = false)
    (hs : sig.stopped = false) :
    (signalTick now p sig).1.targets = applyTargetHits now sig.direction p sig.targets ∧
    (signalTick now p sig).1.status =
      (if tickStopFires p sig then SignalStatus.STOPPED
       else if (applyTargetHits now sig.direction p sig.targets).all (·.hit) then
         SignalStatus.COMPLETED
       else SignalStatus.ACTIVE) := by
  obtain ⟨h1, h2, h3, h4⟩ := signalTick_char now p sig hc hs
  refine ⟨h1, ?_⟩
  by_cases hsf : tickStopFires p sig = true
  · rw [if_pos hsf]
    exact (h2 hsf).1
  · simp only [Bool.not_eq_true] at hsf
    rw [if_neg (by simp [hsf])]
    by_cases hall : (applyTargetHits now sig.direction p sig.targets).all (·.hit) = true
    · rw [if_pos hall]
      exact (h3 hsf hall).1
    · simp only [Bool.not_eq_true] at hall
      rw [if_neg (by simp [hall])]
      exact (h4 hsf hall).1.trans hst

def sigW1 : Signal :=
  { pair := "BTC/USDT", direction := Direction.BUY, entryPrice := 5,
    targets := [{ number := 1, price := 10, profitPercent := 100, hit := false, timestamp := none }],
    stopLoss := none, maxLoss := none, stopped := false, timestamp := 0,
    completed := false, status := SignalStatus.ACTIVE, originalText := "w1" }

theorem c1_tick_stop_precedence_witness :
    (signalTick 1 15 sigW1).1.targets = applyTargetHits 1 sigW1.direction 15 sigW1.targets ∧
    (signalTick 1 15 sigW1).1.status =
      (if tickStopFires 15 sigW1 then SignalStatus.STOPPED
       else if (applyTargetHits 1 sigW1.direction 15 sigW1.targets).all (·.hit) then
         SignalStatus.COMPLETED
       else SignalStatus.ACTIVE) :=
  c1_tick_stop_precedence 1 15 sigW1 rfl rfl rfl

def txtC1 : String := "buy ab entry 5 target 1: 10 stop 20"

def sigC1 : Signal :=
  { pair := "BUY/USDT", direction := Direction.BUY, entryPrice := 5,
    targets := [{ number := 1, price := 10, profitPercent := 100, hit := false, timestamp := none }],
    stopLoss := some 20, maxLoss := some (-300), stopped := false, timestamp := 0,
    completed := false, status := SignalStatus.ACTIVE, originalText := txtC1 }

/-- C1 counterexample: a parseable ACTIVE signal whose stop price lies above
its one target.  At price 15 the tick's hits mark every target hit and the
stop condition also holds, yet the signal ends the tick STOPPED — the stop
check is not skipped and the tick does not end COMPLETED, contradicting the
claim. -/
theorem c1_counterexample :
    parseSignal 0 txtC1 = some sigC1 ∧
    sigC1.status = SignalStatus.ACTIVE ∧
    stopCond sigC1.direction 15 20 = true ∧
    ((signalTick 1 15 sigC1).1.targets.all (·.hit)) = true ∧
    (signalTick 1 15 sigC1).1.status = SignalStatus.STOPPED := by
  decide

/-- C2: once a signal's status is COMPLETED or STOPPED, any number of
subsequent evaluation ticks leaves its whole record — targets and status
included — unchanged, and it never re-enters the active set.  The lifecycle
hypothesis is the system invariant that a terminal record is not a member of
`active_signals` (every mutator of the source maintains it: the tick moves a
signal it terminates out of the set, and the manual overrides do the same). -/
theorem c2_terminal_signals_frozen (st : Store) (ticks : List (Nat × (String → Option ℚ)))
    (id : String) (sig : Signal)
    (hInv : ∀ j sg, st.get j = some sg → sg.status ≠ SignalStatus.ACTIVE → j ∉ st.active)
    (hg : st.get id = some sig) (hterm : sig.status ≠ SignalStatus.ACTIVE) :
    (runTicks ticks st).get id = some sig ∧ id ∉ (runTicks ticks st).active := by
  have main : ∀ (tks : List (Nat × (String → Option ℚ))) (st2 : Store),
      st2.get id = some sig → id ∉ st2.active →
      (runTicks tks st2).get id = some sig ∧ id ∉ (runTicks tks st2).active := by
    intro tks
    induction tks with
    | nil => intro st2 h1 h2; exact ⟨h1, h2⟩
    | cons tk rest ih =>
      intro st2 h1 h2
      have hstep := updateSignals_not_active_frame tk.1 tk.2 st2 id h2
      simp only [runTicks, List.foldl_cons]
      exact ih (updateSignals tk.1 tk.2 st2) (hstep.1.trans h1) (fun hm => h2 (hstep.2.mp hm))
  exact main ticks st hg (hInv id sig hg hterm)

def sigW2 : Signal :=
  { pair := "AB/USDT", direction := Direction.SELL, entryPrice := 9,
    targets := [{ number := 1, price := 8, profitPercent := 1111 / 100, hit := false, timestamp := none }],
    stopLoss := some 11, maxLoss := some (-2222 / 100), stopped := true, timestamp := 0,
    completed := false, status := SignalStatus.STOPPED, originalText := "w2",
    stoppedAt := some 1 }

def stW2 : Store := ⟨[("s1", sigW2)], [], ["s1"], [], []⟩

theorem c2_terminal_signals_frozen_witness :
    (runTicks [(3, fun _ => some 5)] stW2).get "s1" = some sigW2 ∧
    "s1" ∉ (runTicks [(3, fun _ => some 5)] stW2).active :=
  c2_terminal_signals_frozen stW2 [(3, fun _ => some 5)] "s1" sigW2
    (fun j _ _ _ => List.not_mem_nil j) (by decide) (by decide)

/-- C3: a second `storeSignal` with the same dedupe tuple (pair, direction,
entryPrice, sourceMessageId) within the 24-hour window after a successful
store is a complete no-op: it stores nothing and returns the state — records,
sets and indices — unchanged. -/
theorem c3_duplicate_create_noop (t1 t2 : Nat) (sig sig2 : Signal) (msg msg2 : Message)
    (st st1 : Store) (id : String)
    (h1 : storeSignal t1 sig msg st = (some id, st1))
    (hpair : sig2.pair = sig.pair) (hdir : sig2.direction = sig.direction)
    (hent : sig2.entryPrice = sig.entryPrice) (hmid : msg2.messageId = msg.messageId)
    (ht : t2 < t1 + 86400) :
    storeSignal t2 sig2 msg2 st1 = (none, st1) := by
  have hkey : dedupeKey sig2 msg2.messageId = dedupeKey sig msg.messageId := by
    unfold dedupeKey
    rw [hpair, hdir, hent, hmid]
  unfold storeSignal at h1
  dsimp only at h1
  split at h1
  · exact absurd h1 (by simp)
  · injection h1 with hid hstore
    subst hstore
    unfold storeSignal
    dsimp only
    rw [hkey]
    rw [if_pos (hasLiveKey_setExpiry st.dedupe (dedupeKey sig msg.messageId) (t1 + 86400) t2 ht)]

def sigW3 : Signal :=
  { pair := "AB/USDT", direction := Direction.BUY, entryPrice := 5, targets := [],
    stopLoss := none, maxLoss := none, stopped := false, timestamp := 0,
    completed := false, status := SignalStatus.ACTIVE, originalText := "w3" }

def msgW3 : Message := ⟨"m1", "c1", "w3", "crypto_signal"⟩

def stEmpty3 : Store := ⟨[], [], [], [], []⟩

def stW3 : Store := (storeSignal 0 sigW3 msgW3 stEmpty3).2

theorem c3_duplicate_create_noop_witness :
    storeSignal 100 sigW3 msgW3 stW3 = (none, stW3) :=
  c3_duplicate_create_noop 0 100 sigW3 sigW3 msgW3 msgW3 stEmpty3 stW3
    "signal:AB/USDT:0" (by decide) rfl rfl rfl rfl (by decide)

/-- C4 (amended): `parseSignal` returns None whenever the entry price cannot
be resolved, and, for texts without the `📈 SIGNAL:`/`📉 SIGNAL:` marker,
whenever the direction-and-target cue gate fails.  (The original claim fails
because the marker branch bypasses the cue gate and a returned Signal may
have an empty target list — see the counterexample.) -/
theorem c4_parse_none_conditions :
    (∀ (now : Nat) (t : String), hasTestMarker t = false →
      (hasDirectionCue t && hasTargetCue t) = false → parseSignal now t = none) ∧
    (∀ (now : Nat) (t : String), hasTestMarker t = false →
      mainEntryOpt t = none → parseSignal now t = none) ∧
    (∀ (now : Nat) (t : String), hasTestMarker t = true →
      extractTestEntry t = none → parseSignal now t = none) := by
  refine ⟨?_, ?_, ?_⟩
  · intro now t hm hcue
    unfold parseSignal
    simp only [hm, Bool.false_eq_true, if_false]
    unfold parseMainBranch
    simp only [hcue, Bool.false_eq_true, if_false]
  · intro now t hm hentry
    unfold parseSignal
    simp only [hm, Bool.false_eq_true, if_false]
    unfold parseMainBranch
    by_cases hcue : (hasDirectionCue t && hasTargetCue t) = true
    · rw [if_pos hcue]
      cases hmp : extractMainPair t with
      | none => rfl
      | some p0 =>
        dsimp only
        rw [hentry]
    · rw [if_neg hcue]
  · intro now t hm hentry
    unfold parseSignal
    rw [hm, if_pos rfl]
    unfold parseTestBranch
    dsimp only
    rw [hentry]

theorem c4_parse_none_conditions_witness :
    parseSignal 0 "hello world" = none ∧
    parseSignal 0 "sell abc target soon" = none ∧
    parseSignal 0 "📈 SIGNAL: no entry price" = none :=
  ⟨c4_parse_none_conditions.1 0 "hello world" (by decide) (by decide),
   c4_parse_none_conditions.2.1 0 "sell abc target soon" (by decide) (by decide),
   c4_parse_none_conditions.2.2 0 "📈 SIGNAL: no entry price" (by decide) (by decide)⟩

def txtC4 : String := "📈 SIGNAL: Entry: 100"

def sigC4 : Signal :=
  { pair := "BTC/USDT", direction := Direction.SELL, entryPrice := 100, targets := [],
    stopLoss := none, maxLoss := none, stopped := false, timestamp := 0,
    completed := false, status := SignalStatus.ACTIVE, originalText := txtC4 }

/-- C4 counterexample: a text with neither a direction cue nor a target cue
still yields a Signal through the marker branch, and that Signal's target
list is empty — refuting both "texts lacking both cues parse to None" and
"no returned Signal has an empty target list". -/
theorem c4_counterexample :
    hasDirectionCue txtC4 = false ∧ hasTargetCue txtC4 = false ∧
    parseSignal 0 txtC4 = some sigC4 ∧ sigC4.targets = [] := by
  decide

/-- C5 (amended): every Signal returned by `parseSignal` has its targets
sorted ascending by price for BUY and descending for SELL, and each target
stores `profitPercent` as the two-decimal rounding of the raw profit, whose
unrounded value is strictly positive exactly when the target price is
favorable relative to entry.  (The original claim — that the *stored*
profitPercent is strictly positive iff favorable — fails: rounding maps
small favorable profits to 0; see the counterexample.) -/
theorem c5_sorted_and_profit_sign (now : Nat) (t : String) (s : Signal)
    (h : parseSignal now t = some s) :
    (s.direction = Direction.BUY → List.Sorted (· ≤ ·) (s.targets.map (·.price))) ∧
    (s.direction = Direction.SELL → List.Sorted geRel (s.targets.map (·.price))) ∧
    (∀ tg ∈ s.targets,
      tg.profitPercent = toFixed2 (rawProfit (dirIsBuy s.direction) s.entryPrice tg.price) ∧
      (0 < rawProfit (dirIsBuy s.direction) s.entryPrice tg.price ↔
        (if dirIsBuy s.direction then s.entryPrice < tg.price else tg.price < s.entryPrice))) := by
  obtain ⟨isBuy, pair, e, prices, sl, he, hs⟩ := parseSignal_inv h
  subst hs
  cases isBuy with
  | true =>
    refine ⟨fun _ => ?_, fun hcon => ?_, fun tg htg => ?_⟩
    · show List.Sorted (· ≤ ·)
        ((mkProfitTargetsFrom true e 0 (sortTargets true prices)).map (·.price))
      rw [mkProfitTargetsFrom_price_map]
      exact sortTargets_sorted_le prices
    · rw [show (mkSignal now t pair true e prices sl).direction = Direction.BUY from rfl] at hcon
      exact absurd hcon (by decide)
    · have htg2 : tg ∈ mkProfitTargetsFrom true e 0 (sortTargets true prices) := htg
      obtain ⟨-, hpp⟩ := mkProfitTargetsFrom_mem true e 0 (sortTargets true prices) tg htg2
      refine ⟨hpp, ?_⟩
      show 0 < rawProfit true e tg.price ↔ (if dirIsBuy Direction.BUY then e < tg.price else tg.price < e)
      exact rawProfit_pos_iff true e tg.price he
  | false =>
    refine ⟨fun hcon => ?_, fun _ => ?_, fun tg htg => ?_⟩
    · rw [show (mkSignal now t pair false e prices sl).direction = Direction.SELL from rfl] at hcon
      exact absurd hcon (by decide)
    · show List.Sorted geRel
        ((mkProfitTargetsFrom false e 0 (sortTargets false prices)).map (·.price))
      rw [mkProfitTargetsFrom_price_map]
      exact sortTargets_sorted_ge prices
    · have htg2 : tg ∈ mkProfitTargetsFrom false e 0 (sortTargets false prices) := htg
      obtain ⟨-, hpp⟩ := mkProfitTargetsFrom_mem false e 0 (sortTargets false prices) tg htg2
      refine ⟨hpp, ?_⟩
      show 0 < rawProfit false e tg.price ↔ (if dirIsBuy Direction.SELL then e < tg.price else tg.price < e)
      exact rawProfit_pos_iff false e tg.price he

def txtW5 : String := "buy ab entry 5 target 1: 10 tp 7"

def sigW5 : Signal :=
  { pair := "BUY/USDT", direction := Direction.BUY, entryPrice := 5,
    targets := [{ number := 1, price := 7, profitPercent := 40, hit := false, timestamp := none },
                { number := 2, price := 10, profitPercent := 100, hit := false, timestamp := none }],
    stopLoss := none, maxLoss := none, stopped := false, timestamp := 0,
    completed := false, status := SignalStatus.ACTIVE, originalText := txtW5 }

theorem c5_sorted_and_profit_sign_witness :
    List.Sorted (· ≤ ·) (sigW5.targets.map (·.price)) := by
  have h := c5_sorted_and_profit_sign 0 txtW5 sigW5 (by decide)
  exact h.1 rfl

def txtC5 : String := "buy ab entry: 100000 target 1: 100001"

def sigC5 : Signal :=
  { pair := "BUY/USDT", direction := Direction.BUY, entryPrice := 100000,
    targets := [{ number := 1, price := 100001, profitPercent := 0, hit := false, timestamp := none }],
    stopLoss := none, maxLoss := none, stopped := false, timestamp := 0,
    completed := false, status := SignalStatus.ACTIVE, originalText := txtC5 }

/-- C5 counterexample: a parsed BUY signal whose target 100001 is favorable
(above the 100000 entry), yet the stored profitPercent — the raw 0.001%
after `toFixed(2)` — is 0, not strictly positive, refuting the claimed
"stored profitPercent > 0 iff favorable". -/
theorem c5_counterexample :
    parseSignal 0 txtC5 = some sigC5 ∧
    sigC5.entryPrice < 100001 ∧
    sigC5.targets.map (·.price) = [100001] ∧
    sigC5.targets.map (·.profitPercent) = [0] := by
  refine ⟨by decide, by norm_num [sigC5], by decide, by decide⟩

/-- C6 (amended): `calculateSignalStats` classifies every selected signal
into exactly one class, but the classes are: fully-successful iff every
target is hit (even when the signal was also stopped, and vacuously for an
empty target list); failed iff not all targets hit, zero targets hit and
stopped; partially-successful otherwise.  The three counts partition the
selection.  (The original claim's "all targets hit AND never stopped" /
"stopped with zero targets hit" reading fails; see the counterexample.) -/
theorem c6_outcome_partition (signals : List Signal) :
    (calculateSignalStats signals).successful = signals.countP isFullWin ∧
    (calculateSignalStats signals).failed = signals.countP isFail ∧
    (calculateSignalStats signals).partiallySuccessful = signals.countP isPartialWin ∧
    (calculateSignalStats signals).successful + (calculateSignalStats signals).failed +
      (calculateSignalStats signals).partiallySuccessful = signals.length := by
  obtain ⟨h1, h2, h3⟩ := foldl_statsStep_counts signals (initStats signals.length)
  have e1 : (calculateSignalStats signals).successful =
      (signals.foldl statsStep (initStats signals.length)).successful := rfl
  have e2 : (calculateSignalStats signals).failed =
      (signals.foldl statsStep (initStats signals.length)).failed := rfl
  have e3 : (calculateSignalStats signals).partiallySuccessful =
      (signals.foldl statsStep (initStats signals.length)).partiallySuccessful := rfl
  refine ⟨?_, ?_, ?_, ?_⟩
  · rw [e1, h1]; simp [initStats]
  · rw [e2, h2]; simp [initStats]
  · rw [e3, h3]; simp [initStats]
  · rw [e1, h1, e2, h2, e3, h3]
    simp only [initStats, Nat.zero_add]
    exact countP_partition signals

def sigC6 : Signal :=
  { pair := "X/USDT", direction := Direction.BUY, entryPrice := 5,
    targets := [{ number := 1, price := 10, profitPercent := 100, hit := true, timestamp := some 1 }],
    stopLoss := some 4, maxLoss := some 20, stopped := true, timestamp := 0,
    completed := false, status := SignalStatus.STOPPED, originalText := "c6",
    stoppedAt := some 2 }

/-- C6 counterexample: a stopped signal whose every target was hit is
counted fully-successful by the aggregator, although per the claim a signal
that was stopped must not be fully-successful (it should fall in the
partial "mixture" class). -/
theorem c6_counterexample :
    sigC6.stopped = true ∧
    sigC6.targets.all (·.hit) = true ∧
    (calculateSignalStats [sigC6]).successful = 1 ∧
    (calculateSignalStats [sigC6]).partiallySuccessful = 0 ∧
    (calculateSignalStats [sigC6]).failed = 0 := by
  decide

/-- C7: when the price fetch for a pair fails in a tick, every signal on
that pair keeps its record unchanged and keeps its active-set membership
(so the next tick evaluates it again). -/
theorem c7_price_failure_skips_pair (now : Nat) (price : String → Option ℚ) (st : Store)
    (pair id : String) (sig : Signal)
    (hp : price pair = none) (hg : st.get id = some sig) (hpair : sig.pair = pair) :
    (updateSignals now price st).get id = some sig ∧
    (id ∈ (updateSignals now price st).active ↔ id ∈ st.active) := by
  have frame : (updateSignals now price st).get id = st.get id ∧
      (id ∈ (updateSignals now price st).active ↔ id ∈ st.active) := by
    unfold updateSignals
    apply foldl_tickGroup_other
    intro g hgmem
    by_cases hpg : price g.1 = none
    · exact Or.inl hpg
    · right
      intro it hit hcon
      have hspec := groupByPair_good (fun x => x ∈ activeItems st) (activeItems st)
        (fun _ hx => hx) g hgmem it hit
      have h2 := activeItems_spec st it hspec.1
      rw [hcon] at h2
      have hsig : it.2 = sig := Option.some.inj (h2.2.symm.trans hg)
      apply hpg
      rw [← hspec.2, hsig, hpair]
      exact hp
  exact ⟨frame.1.trans hg, frame.2⟩

def sigW7 : Signal :=
  { pair := "AB/USDT", direction := Direction.BUY, entryPrice := 5, targets := [],
    stopLoss := none, maxLoss := none, stopped := false, timestamp := 0,
    completed := false, status := SignalStatus.ACTIVE, originalText := "w7" }

def stW7 : Store := ⟨[("s1", sigW7)], ["s1"], [], [], []⟩

theorem c7_price_failure_skips_pair_witness :
    (updateSignals 3 (fun _ => none) stW7).get "s1" = some sigW7 ∧
    ("s1" ∈ (updateSignals 3 (fun _ => none) stW7).active ↔ "s1" ∈ stW7.active) :=
  c7_price_failure_skips_pair 3 (fun _ => none) stW7 "AB/USDT" "s1" sigW7 rfl (by decide) rfl

/-- C8 (amended): `backfillSignals` replays up to `limit` fetched messages
through the live Parser→Store path and returns the count of messages that
carry text and are *recognized* as signals (parse success with a configured
destination) — regardless of whether the store call actually stored a
record: a dedupe no-op still contributes 1, only parse misses and textless
messages contribute 0.  (The original claim's "stored" reading fails; see
the counterexample.) -/
theorem c8_backfill_count (now : Nat) (mapping : List (String × String))
    (resultChannel : Option String) (ch : String) (limit : Nat)
    (fetched : List RawMsg) (st : Store) (dest : String)
    (hd : getDestinationForSource mapping resultChannel ch = some dest) :
    (backfillSignals now mapping resultChannel ch limit fetched st).map Prod.fst =
      some ((fetched.take limit).countP (backfillPred now)) := by
  unfold backfillSignals
  rw [hd]
  dsimp only
  simp only [Option.map_some']
  rw [foldl_backfillStep_count now mapping resultChannel ch dest hd (fetched.take limit) (0, st)]
  simp

def txtW8 : String := "buy ab entry 5 target 1: 10"

def stEmpty8 : Store := ⟨[], [], [], [], []⟩

theorem c8_backfill_count_witness :
    (backfillSignals 0 [("ch", "dest")] none "ch" 5
      [{ id := "m1", text := some txtW8 }] stEmpty8).map Prod.fst = some 1 := by
  have h := c8_backfill_count 0 [("ch", "dest")] none "ch" 5
    [{ id := "m1", text := some txtW8 }] stEmpty8 "dest" (by decide)
  rw [h]
  decide

def txtC8 : String := "buy cd entry 5 target 1: 10"

def stC8 : Store := ⟨[], [], [], [], [("signal:hash:BUY/USDT-BUY-5d1-m9", 1000000)]⟩

/-- C8 counterexample: the dedupe key of the one fetched message is already
present, so its store call is a no-op — the returned state is exactly the
input state, with no record added — yet backfill returns 1, not 0, because
`processMessage` reports true for every parsed signal regardless of the
store outcome. -/
theorem c8_counterexample :
    backfillSignals 7 [("ch", "dest")] none "ch" 10
      [{ id := "m9", text := some txtC8 }] stC8 = some (1, stC8) ∧
    stC8.records = [] := by
  decide

/-- C9 (amended): evaluation ticks on a consistent ACTIVE signal preserve
the claimed invariant — they transition only to COMPLETED or STOPPED,
setting exactly the matching timestamp.  The manual overrides do not:
`completeSignal` (resp. `stopSignal`) unconditionally sets COMPLETED (resp.
STOPPED) and its timestamp whatever the current status, preserving the
other timestamp — so applied to a signal already in the other terminal
state it transitions between terminal states and leaves both timestamps
set.  (The original claim that every mutator preserves the invariant fails;
see the counterexample.) -/
theorem c9_transitions :
    (∀ (now : Nat) (p : ℚ) (sig : Signal),
      sig.status = SignalStatus.ACTIVE → sig.completed = false → sig.stopped = false →
      sig.completedAt = none → sig.stoppedAt = none →
      ((signalTick now p sig).1.status = SignalStatus.ACTIVE ∧
        (signalTick now p sig).1.completedAt = none ∧
        (signalTick now p sig).1.stoppedAt = none) ∨
      ((signalTick now p sig).1.status = SignalStatus.COMPLETED ∧
        (signalTick now p sig).1.completedAt = some now ∧
        (signalTick now p sig).1.stoppedAt = none) ∨
      ((signalTick now p sig).1.status = SignalStatus.STOPPED ∧
        (signalTick now p sig).1.stoppedAt = some now ∧
        (signalTick now p sig).1.completedAt = none)) ∧
    (∀ (now : Nat) (id : String) (st : Store) (sig : Signal), st.get id = some sig →
      ((completeSignal now id st).2.get id).map
          (fun s2 => (s2.status, s2.completedAt, s2.stoppedAt)) =
        some (SignalStatus.COMPLETED, some now, sig.stoppedAt)) ∧
    (∀ (now : Nat) (id : String) (st : Store) (sig : Signal), st.get id = some sig →
      ((stopSignal now id st).2.get id).map
          (fun s2 => (s2.status, s2.completedAt, s2.stoppedAt)) =
        some (SignalStatus.STOPPED, sig.completedAt, some now)) := by
  refine ⟨?_, ?_, ?_⟩
  · intro now p sig hst hc hs hca hsa
    obtain ⟨-, h2, h3, h4⟩ := signalTick_char now p sig hc hs
    by_cases hsf : tickStopFires p sig = true
    · right; right
      obtain ⟨a, b, c, -, -⟩ := h2 hsf
      exact ⟨a, b, c.trans hca⟩
    · simp only [Bool.not_eq_true] at hsf
      by_cases hall : (applyTargetHits now sig.direction p sig.targets).all (·.hit) = true
      · right; left
        obtain ⟨a, b, c, -, -⟩ := h3 hsf hall
        exact ⟨a, b, c.trans hsa⟩
      · simp only [Bool.not_eq_true] at hall
        left
        obtain ⟨a, b, c, -, -⟩ := h4 hsf hall
        exact ⟨a.trans hst, b.trans hca, c.trans hsa⟩
  · intro now id st sig hget
    unfold completeSignal
    rw [hget]
    dsimp only [Store.get]
    rw [getAssoc_set_self]
    rfl
  · intro now id st sig hget
    unfold stopSignal
    rw [hget]
    dsimp only [Store.get]
    rw [getAssoc_set_self]
    rfl

def sigW9 : Signal :=
  { pair := "CD/USDT", direction := Direction.SELL, entryPrice := 9,
    targets := [{ number := 1, price := 8, profitPercent := 11, hit := false, timestamp := none }],
    stopLoss := none, maxLoss := none, stopped := true, timestamp := 0,
    completed := false, status := SignalStatus.STOPPED, originalText := "w9",
    stoppedAt := some 5 }

def stW9 : Store := ⟨[("s1", sigW9)], [], ["s1"], [], []⟩

theorem c9_transitions_witness :
    ((completeSignal 10 "s1" stW9).2.get "s1").map
        (fun s2 => (s2.status, s2.completedAt, s2.stoppedAt)) =
      some (SignalStatus.COMPLETED, some 10, sigW9.stoppedAt) :=
  c9_transitions.2.1 10 "s1" stW9 sigW9 (by decide)

def sigC9 : Signal :=
  { pair := "EF/USDT", direction := Direction.BUY, entryPrice := 5, targets := [],
    stopLoss := none, maxLoss := none, stopped := false, timestamp := 0,
    completed := false, status := SignalStatus.ACTIVE, originalText := "c9" }

def stC9a : Store := ⟨[("s1", sigC9)], ["s1"], [], [], []⟩

def stC9b : Store := (stopSignal 5 "s1" stC9a).2

def stC9c : Store := (completeSignal 10 "s1" stC9b).2

/-- C9 counterexample: stop the signal at time 5 (STOPPED, stoppedAt set),
then manually complete it at time 10 — the record transitions out of the
terminal state STOPPED into COMPLETED and ends with BOTH completedAt and
stoppedAt set, violating both halves of the claimed invariant. -/
theorem c9_counterexample :
    (stC9b.get "s1").map (fun s2 => (s2.status, s2.completedAt, s2.stoppedAt)) =
      some (SignalStatus.STOPPED, none, some 5) ∧
    (stC9c.get "s1").map (fun s2 => (s2.status, s2.completedAt, s2.stoppedAt)) =
      some (SignalStatus.COMPLETED, some 10, some 5) := by
  decide

/-- C10 (amended): for every text containing the `📈 SIGNAL:`/`📉 SIGNAL:`
marker together with an `Entry: <number>` field whose number is nonzero,
`parseSignal` returns a Signal even with no buy/sell/long/short keyword and
no recognizable pair: the pair defaults to `BTC/USDT` when the
`SIGNAL: <PAIR> <LONG|SHORT>` pattern does not match, and the direction is
SELL unless the text contains `long` case-insensitively.  (The original
claim fails for the number 0, which the entry-truthiness check rejects; see
the counterexample.) -/
theorem c10_test_branch_defaults (now : Nat) (t : String) (p : ℚ)
    (hmark : hasTestMarker t = true) (hentry : extractTestEntry t = some p) (hp : p ≠ 0) :
    ∃ s, parseSignal now t = some s ∧
      s.pair = (extractTestPair t).getD "BTC/USDT" ∧
      s.direction = (if jsIncludes (lowerStr t) "long" then Direction.BUY else Direction.SELL) ∧
      s.entryPrice = p := by
  unfold parseSignal
  rw [hmark, if_pos rfl]
  unfold parseTestBranch
  dsimp only
  rw [hentry]
  dsimp only
  rw [if_neg hp]
  exact ⟨_, rfl, rfl, rfl, rfl⟩

def txtW10 : String := "📉 SIGNAL: Entry: 5"

theorem c10_test_branch_defaults_witness :
    ∃ s, parseSignal 0 txtW10 = some s ∧
      s.pair = "BTC/USDT" ∧ s.direction = Direction.SELL := by
  obtain ⟨s, h1, h2, h3, -⟩ := c10_test_branch_defaults 0 txtW10 5 (by decide) (by decide) (by decide)
  refine ⟨s, h1, ?_, ?_⟩
  · rw [h2]; decide
  · rw [h3]; decide

def txtC10 : String := "📈 SIGNAL: Entry: 0"

/-- C10 counterexample: the text carries the marker and an `Entry: 0` field
— an `Entry: <number>` field — yet `parseSignal` returns None, because the
source's `if (!entryPrice)` truthiness check rejects a parsed 0. -/
theorem c10_counterexample :
    hasTestMarker txtC10 = true ∧
    extractTestEntry txtC10 = some 0 ∧
    parseSignal 0 txtC10 = none := by
  decide

end Pnl
